import Mathlib

/-!
Shallow embedding of `sql-splitter` (`src/main.rs`): a streaming line-oriented
demultiplexer that splits an SSMS-generated SQL dump into one output sink per
object marker, either as loose files or as entries of a zip archive.

The embedding models:
 * the marker recognizer `DatabaseObject::try_from` (the anchored regex
   `^/\*+\s+Object:\s+(\w+)\s+\[(\S+)\]\.\[(\S+)\]` with its leftmost-greedy
   backtracking semantics);
 * the loose-file main loop (lines 271-340 of `main.rs`) as a state machine
   over an abstract list of input lines;
 * the zip main loop (lines 203-270) including the `BufWriter` buffer that sits
   between the loop and the `ZipWriter` (`get_mut`/`start_file` does not flush
   the buffer, which is observable);
 * the path construction (`make_path`, the `join("/")` calls), the zip-path
   resolution (`Path::with_extension("zip")`, the pre-existence check) and the
   setup sequence (`create_dir_all(out_dir)` before the loop).

Rust `str::starts_with` / `ends_with` are byte-prefix/suffix tests; on valid
UTF-8 these coincide with character-sequence prefix/suffix tests, which is how
they are embedded here.
-/

namespace SqlSplitter

/-! ## Rust string primitives used by the source -/

/-- Rust `str::starts_with`: prefix test on the character sequence. -/
def strStartsWith (s p : String) : Bool := p.data.isPrefixOf s.data

/-- Rust `str::ends_with`: suffix test on the character sequence. -/
def strEndsWith (s p : String) : Bool := p.data.isSuffixOf s.data

/-! ## The marker recognizer

`DatabaseObject::try_from` matches the anchored regex
`^/\*+\s+Object:\s+(\w+)\s+\[(\S+)\]\.\[(\S+)\]`.

The quantifiers are embedded with their leftmost-greedy backtracking
semantics: `gStar p k cs` consumes as many `p`-characters from `cs` as
possible such that the continuation `k` succeeds on the remainder, preferring
longer matches, and returns the consumed characters together with the
continuation's result. `gPlus` is `gStar` requiring at least one character. -/

def gStar {α : Type} (p : Char → Bool) (k : List Char → Option α) :
    List Char → Option (List Char × α)
  | [] => (k []).map (fun a => ([], a))
  | c :: rest =>
    if p c then
      match gStar p k rest with
      | some (cap, a) => some (c :: cap, a)
      | none => (k (c :: rest)).map (fun a => ([], a))
    else (k (c :: rest)).map (fun a => ([], a))

def gPlus {α : Type} (p : Char → Bool) (k : List Char → Option α)
    (cs : List Char) : Option (List Char × α) :=
  match cs with
  | [] => none
  | c :: rest =>
    if p c then (gStar p k rest).map (fun ca => (c :: ca.1, ca.2)) else none

/-- Match a literal character sequence, returning the remainder. -/
def lit : List Char → List Char → Option (List Char)
  | [], cs => some cs
  | _ :: _, [] => none
  | l :: ls, c :: cs => if c = l then lit ls cs else none

/-- Regex `\w` (word character); the inputs of interest are ASCII. -/
def isWordChar (c : Char) : Bool := c.isAlphanum || c = '_'

/-- Regex `\S` (non-whitespace). -/
def isNonSpace (c : Char) : Bool := !c.isWhitespace

/-- The continuation after the name capture: the regex's final `\]`. -/
def closeBr : List Char → Option Unit
  | ']' :: _ => some ()
  | _ => none

/-- Matches `(\S+)\]` at the front of the input, returning the capture. -/
def nameCapture (cs : List Char) : Option (List Char) :=
  (gPlus isNonSpace closeBr cs).map (fun ca => ca.1)

/-- The continuation after the schema capture: the literal `].[` then the
name part. -/
def closeBrDotOpen : List Char → Option (List Char)
  | ']' :: '.' :: '[' :: r9 => nameCapture r9
  | _ => none

/-- Matches `(\S+)\]\.\[(\S+)\]` at the front of the input, returning the
two captures (schema, name). -/
def brackCapture (cs : List Char) : Option (List Char × List Char) :=
  gPlus isNonSpace closeBrDotOpen cs

/-- After `\s+` following the kind: the literal `\[` then the brackets. -/
def contOpenBracket : List Char → Option (List Char × List Char)
  | '[' :: r7 => brackCapture r7
  | _ => none

/-- After the kind capture: `\s+` then the brackets. -/
def contAfterKind (r5 : List Char) : Option (List Char × List Char) :=
  (gPlus Char.isWhitespace contOpenBracket r5).map (fun ca => ca.2)

/-- After `\s+` following `Object:`: the kind capture `(\w+)` then the rest;
produces the full (kind, schema, name) triple. -/
def contKind (r4 : List Char) : Option (List Char × List Char × List Char) :=
  gPlus isWordChar contAfterKind r4

/-- After the literal `Object:`: `\s+` then the kind. -/
def contAfterLit (r3 : List Char) : Option (List Char × List Char × List Char) :=
  (gPlus Char.isWhitespace contKind r3).map (fun ca => ca.2)

/-- After `\s+` following the asterisks: the literal `Object:` then on. -/
def contObjectLit (r2 : List Char) : Option (List Char × List Char × List Char) :=
  (lit "Object:".data r2).bind contAfterLit

/-- After `\*+`: `\s+` then the literal. -/
def contAfterStars (r1 : List Char) : Option (List Char × List Char × List Char) :=
  (gPlus Char.isWhitespace contObjectLit r1).map (fun ca => ca.2)

/-- The whole anchored regex `^/\*+\s+Object:\s+(\w+)\s+\[(\S+)\]\.\[(\S+)\]`
applied at the start of the line; returns the three captures
(kind, schema, name). `\*+`, `\s+` are not capture groups, so their consumed
characters are discarded. -/
def matchMarker (cs : List Char) : Option (List Char × List Char × List Char) :=
  match cs with
  | '/' :: r0 => (gPlus (fun c => c = '*') contAfterStars r0).map (fun ca => ca.2)
  | _ => none

/-- A boundary suffix: nothing, or a whitespace-headed remainder (how a
well-formed marker line continues after the closing bracket). -/
def wsBoundary : List Char → Bool
  | [] => true
  | c :: _ => c.isWhitespace

/-! ## `ObjectType` and `DatabaseObject` -/

/-- The closed enumeration of object kinds (`enum ObjectType`). -/
inductive ObjectType
  | Database
  | DatabaseRole
  | DdlTrigger
  | Index
  | Schema
  | Sequence
  | StoredProcedure
  | Synonym
  | Table
  | Trigger
  | User
  | UserDefinedDataType
  | UserDefinedFunction
  | View
deriving DecidableEq, Repr

/-- The `Display` impl for `ObjectType`. -/
def ObjectType.display : ObjectType → String
  | .Database => "Database"
  | .DatabaseRole => "DatabaseRole"
  | .DdlTrigger => "DdlTrigger"
  | .Index => "Index"
  | .Schema => "Schema"
  | .Sequence => "Sequence"
  | .StoredProcedure => "StoredProcedure"
  | .Synonym => "Synonym"
  | .Table => "Table"
  | .Trigger => "Trigger"
  | .User => "User"
  | .UserDefinedDataType => "UserDefinedDataType"
  | .UserDefinedFunction => "UserDefinedFunction"
  | .View => "View"

/-- The `match cap.as_str()` dispatch inside `DatabaseObject::try_from`
(case-sensitive equality against the fourteen fixed names). -/
def objectTypeOfString (s : String) : Option ObjectType :=
  if s = "Database" then some .Database
  else if s = "DatabaseRole" then some .DatabaseRole
  else if s = "DdlTrigger" then some .DdlTrigger
  else if s = "Index" then some .Index
  else if s = "Schema" then some .Schema
  else if s = "Sequence" then some .Sequence
  else if s = "StoredProcedure" then some .StoredProcedure
  else if s = "Synonym" then some .Synonym
  else if s = "Table" then some .Table
  else if s = "Trigger" then some .Trigger
  else if s = "User" then some .User
  else if s = "UserDefinedDataType" then some .UserDefinedDataType
  else if s = "UserDefinedFunction" then some .UserDefinedFunction
  else if s = "View" then some .View
  else none

/-- `struct DatabaseObject`. -/
structure DatabaseObject where
  object_type : ObjectType
  schema : String
  name : String
deriving DecidableEq, Repr

/-- `impl TryFrom<&str> for DatabaseObject` (`Err` embedded as `none`):
apply the regex; on a match, dispatch the kind token against the closed set
of names, rejecting unknown kinds. -/
def DatabaseObject.try_from (s : String) : Option DatabaseObject :=
  match matchMarker s.data with
  | some (kind, schema, name) =>
    match objectTypeOfString (String.mk kind) with
    | some t => some ⟨t, String.mk schema, String.mk name⟩
    | none => none
  | none => none

/-- The fourteen kind names of the closed set, in source order. -/
def kindNames : List String :=
  ["Database", "DatabaseRole", "DdlTrigger", "Index", "Schema", "Sequence",
   "StoredProcedure", "Synonym", "Table", "Trigger", "User",
   "UserDefinedDataType", "UserDefinedFunction", "View"]

/-- A well-formed marker line in the shape of spec §4.1 / §8:
`/***... Object: <Kind> [<Schema>].[<Name>] ...`, with explicit runs for the
asterisks and the whitespace. -/
def markerLine (stars ws1 ws2 kind ws3 schema name rest : String) : String :=
  "/" ++ stars ++ ws1 ++ "Object:" ++ ws2 ++ kind ++ ws3 ++ "[" ++ schema ++
    "].[" ++ name ++ "]" ++ rest

/-! ## Path construction -/

/-- The `make_path` closure: filename is `<name>.sql` when `only_object_names`
is set or the schema is empty, `<schema>.<name>.sql` otherwise, joined under
`dir`. -/
def make_path (only_object_names : Bool) (dir : String) (obj : DatabaseObject) :
    String :=
  if only_object_names || obj.schema = "" then
    dir ++ "/" ++ obj.name ++ ".sql"
  else
    dir ++ "/" ++ obj.schema ++ "." ++ obj.name ++ ".sql"

/-- The destination of a recognized object: `[dir, kind].join("/")` fed to
`make_path`, as both loops do. -/
def objPath (only_object_names : Bool) (dir : String) (obj : DatabaseObject) :
    String :=
  make_path only_object_names (dir ++ "/" ++ obj.object_type.display) obj

/-! ## The loose-file loop (lines 271-340)

The input stream is abstracted as the list of lines that successive
`read_line` calls return, each retaining its terminator; `read_line` on the
exhausted stream returns zero bytes and leaves the buffer unchanged (EOF is
`Ok(0)`, not an error). A sink records the file path, the bytes written at
creation (`db_use_statement`, then the marker line) and the bytes appended
afterwards; the file's content is their concatenation. -/

/-- One output file: `content = preamble ++ marker ++ body` is the byte
sequence written to it. -/
structure Sink where
  path : String
  preamble : String
  marker : String
  body : String
deriving DecidableEq, Repr

/-- The bytes a sink's file holds. -/
def Sink.content (s : Sink) : String := s.preamble ++ s.marker ++ s.body

/-- Loop state of the loose-file branch: `db_use_statement`, the open
`Option<BufWriter<File>>`, and the files already written and flushed. -/
structure LState where
  preamble : String
  current : Option Sink
  closed : List Sink
deriving DecidableEq, Repr

/-- State at `main`'s entry to the loop: empty `db_use_statement`, no writer. -/
def initState : LState := ⟨"", none, []⟩

/-- All files produced by a run, in creation order (the still-open writer is
flushed at end of input). -/
def allSinks (st : LState) : List Sink := st.closed ++ st.current.toList

/-- The `else` arm: append the line to the open writer, or drop it when no
writer exists. -/
def writeLine (st : LState) (l : String) : LState :=
  match st.current with
  | some s => { st with current := some { s with body := s.body ++ l } }
  | none => st

/-- The loose-file loop. Per iteration: a `USE `-line makes
`db_use_statement` the concatenation of it and the next line (`read_line`
appends; at EOF it appends nothing); a line with the marker prefix whose
parse succeeds flushes the open writer and opens a new file primed with the
preamble and the marker line; a marker-prefixed line whose parse fails does
nothing; any other line goes to the open writer if one exists. -/
def runLoose (outDir : String) (onlyNames : Bool) :
    List String → LState → LState
  | [], st => st
  | l :: rest, st =>
    if strStartsWith l "USE " then
      match rest with
      | [] => { st with preamble := l }
      | g :: r2 => runLoose outDir onlyNames r2 { st with preamble := l ++ g }
    else if strStartsWith l "/****** Object:" then
      match DatabaseObject.try_from l with
      | some obj =>
        runLoose outDir onlyNames rest
          { preamble := st.preamble,
            current := some
              { path := objPath onlyNames outDir obj,
                preamble := st.preamble, marker := l, body := "" },
            closed := st.closed ++ st.current.toList }
      | none => runLoose outDir onlyNames rest st
    else
      runLoose outDir onlyNames rest (writeLine st l)

/-- The marker lines the loop recognizes, in order, with their parsed
descriptors. Follows the loop's own consumption: the line after a `USE `-line
is swallowed by the context switch and never tested. (Spec §8 counts sinks by
the number of recognizer successes.) -/
def recognizedMarkers : List String → List (String × DatabaseObject)
  | [] => []
  | l :: rest =>
    if strStartsWith l "USE " then
      match rest with
      | [] => []
      | _ :: r2 => recognizedMarkers r2
    else if strStartsWith l "/****** Object:" then
      match DatabaseObject.try_from l with
      | some obj => (l, obj) :: recognizedMarkers rest
      | none => recognizedMarkers rest
    else recognizedMarkers rest

/-! ## The zip loop (lines 203-270)

The zip branch drives a `BufWriter<ZipWriter<File>>`. `ZipWriter` attributes
raw writes to the most recently started entry and errors when no entry has
been started. The loop calls `writer.get_mut()` to reach the `ZipWriter` for
`start_file` without flushing the `BufWriter`'s buffer (default capacity 8192
bytes), so buffered bytes are attributed to whichever entry is open when the
buffer is eventually flushed. -/

/-- One archive entry: a directory, or a file with the bytes the `ZipWriter`
received while it was the started entry. -/
inductive ZEntry
  | dir (name : String)
  | file (name : String) (content : String)
deriving DecidableEq, Repr

/-- The entry's name in the archive. -/
def ZEntry.name : ZEntry → String
  | .dir n => n
  | .file n _ => n

/-- `ZipWriter` state: entries in creation order, and whether a file entry is
currently started (`writing_to_file`). -/
structure ZipSt where
  entries : List ZEntry
  writingToFile : Bool
deriving DecidableEq, Repr

/-- Append bytes to the last entry when it is a file. -/
def appendToLast (es : List ZEntry) (s : String) : List ZEntry :=
  match es with
  | [] => []
  | [e] =>
    match e with
    | .file n c => [.file n (c ++ s)]
    | .dir n => [.dir n]
  | e :: rest => e :: appendToLast rest s

/-- `impl Write for ZipWriter`: error (`none`) when no file has been started,
otherwise the bytes go to the started entry. -/
def zipWrite (z : ZipSt) (s : String) : Option ZipSt :=
  if z.writingToFile then some { z with entries := appendToLast z.entries s }
  else none

/-- `ZipWriter::start_file`: finish the current entry, start a new empty file
entry. -/
def startFile (z : ZipSt) (name : String) : ZipSt :=
  { entries := z.entries ++ [.file name ""], writingToFile := true }

/-- `ZipWriter::add_directory`: finish the current entry, add a directory
entry; afterwards no file is started. -/
def addDirectory (z : ZipSt) (name : String) : ZipSt :=
  { entries := z.entries ++ [.dir name], writingToFile := false }

/-- `ZipWriter::finish`: write the central directory; no entry remains
started. -/
def finishZip (z : ZipSt) : ZipSt := { z with writingToFile := false }

/-- `BufWriter<ZipWriter>`: the in-memory buffer plus the wrapped writer. -/
structure ZBuf where
  buf : String
  zip : ZipSt
deriving DecidableEq, Repr

/-- `BufWriter`'s default capacity in bytes. -/
def bwCap : Nat := 8192

/-- `BufWriter::flush_buf`: write the buffered bytes (if any) to the inner
writer and empty the buffer; the inner write can fail. -/
def flushBuf (w : ZBuf) : Option ZBuf :=
  if w.buf = "" then some w
  else (zipWrite w.zip w.buf).map (fun z => { buf := "", zip := z })

/-- `BufWriter::write`: flush first when the incoming bytes would overflow the
buffer; then write directly when they alone reach the capacity, otherwise
buffer them. -/
def bwWrite (w : ZBuf) (s : String) : Option ZBuf :=
  (if bwCap < w.buf.utf8ByteSize + s.utf8ByteSize then flushBuf w
   else some w).bind
    (fun w1 =>
      if bwCap ≤ s.utf8ByteSize then
        (zipWrite w1.zip s).map (fun z => { w1 with zip := z })
      else some { w1 with buf := w1.buf ++ s })

/-- The zip loop's marker arm: `writer.get_mut().start_file(path)` (no buffer
flush), then `db_use_statement` and the marker line through the `BufWriter`. -/
def zipCreateSink (zipParent : String) (onlyNames : Bool) (pre l : String)
    (obj : DatabaseObject) (w : ZBuf) : Option ZBuf :=
  (bwWrite { w with zip := startFile w.zip (objPath onlyNames zipParent obj) }
      pre).bind
    (fun w2 => bwWrite w2 l)

/-- The zip loop body over the remaining lines; `none` is the fatal
`expect`-abort on a failed write. The `USE ` arm is identical to the
loose-file loop's. Returns the final `db_use_statement` and writer. -/
def runZipLoop (zipParent : String) (onlyNames : Bool) :
    List String → String → ZBuf → Option (String × ZBuf)
  | [], pre, w => some (pre, w)
  | l :: rest, pre, w =>
    if strStartsWith l "USE " then
      match rest with
      | [] => some (l, w)
      | g :: r2 => runZipLoop zipParent onlyNames r2 (l ++ g) w
    else if strStartsWith l "/****** Object:" then
      match DatabaseObject.try_from l with
      | some obj =>
        (zipCreateSink zipParent onlyNames pre l obj w).bind
          (fun w3 => runZipLoop zipParent onlyNames rest pre w3)
      | none => runZipLoop zipParent onlyNames rest pre w
    else
      (bwWrite w l).bind (fun w1 => runZipLoop zipParent onlyNames rest pre w1)

/-- End of input in the zip branch: `writer.flush()` then
`writer.get_mut().finish()`; the flush can fail. -/
def zipFinalize (w : ZBuf) : Option ZipSt :=
  (flushBuf w).map (fun w1 => finishZip w1.zip)

/-- The whole zip branch: `add_directory(zip_parent_dir)`, wrap in a
`BufWriter`, run the loop from an empty `db_use_statement`, finalize. -/
def runZip (zipParent : String) (onlyNames : Bool) (lines : List String) :
    Option ZipSt :=
  (runZipLoop zipParent onlyNames lines ""
      { buf := "", zip := addDirectory ⟨[], false⟩ zipParent }).bind
    (fun pw => zipFinalize pw.2)

/-! ## Zip-path resolution and setup (lines 121-187) -/

/-- Split a character list at the LAST occurrence of `sep`:
`cs = a ++ sep :: b` with `sep ∉ b`. -/
def splitLast (sep : Char) : List Char → Option (List Char × List Char)
  | [] => none
  | c :: rest =>
    match splitLast sep rest with
    | some ab => some (c :: ab.1, ab.2)
    | none => if c = sep then some ([], rest) else none

/-- `Path::file_stem` on the final path component: the part before the last
`.`, except that a lone leading `.` does not separate an extension. -/
def fileStem (p : String) : String :=
  let name :=
    match splitLast '/' p.data with
    | some ab => ab.2
    | none => p.data
  match splitLast '.' name with
  | some ab => if ab.1 = [] then String.mk name else String.mk ab.1
  | none => String.mk name

/-- `Path::with_extension("zip")`: the final component's last extension is
replaced by `zip` (appended only when the component has none). -/
def withExtensionZip (p : String) : String :=
  let dirAndName : List Char × List Char :=
    match splitLast '/' p.data with
    | some ab => (ab.1 ++ ['/'], ab.2)
    | none => ([], p.data)
  let stem :=
    match splitLast '.' dirAndName.2 with
    | some ab => if ab.1 = [] then dirAndName.2 else ab.1
    | none => dirAndName.2
  String.mk (dirAndName.1 ++ stem ++ '.' :: "zip".data)

/-- Lines 134-146: with `-z <zp>`, exit (`none`) when the path **as given**
already exists; otherwise the archive path is `zp` itself when it ends in
`.zip`, else `with_extension("zip")` of it. `exists_` abstracts
`Path::exists`. -/
def resolveZipPath (exists_ : String → Bool) (zp : String) : Option String :=
  if exists_ zp then none
  else if strEndsWith zp ".zip" then some zp
  else some (withExtensionZip zp)

/-- Lines 124-132: one trailing `/` or `\` is stripped from `out_dir`. -/
def trimOutDir (s : String) : String :=
  if 0 < s.length then
    match s.data.getLast? with
    | some '/' => String.mk s.data.dropLast
    | some '\\' => String.mk s.data.dropLast
    | _ => s
  else s

/-- Filesystem effects of the setup phase, in program order. -/
inductive SetupEffect
  | createDirAll (dir : String)
  | createZipFile (path : String)
deriving DecidableEq, Repr

/-- The setup sequence of `main` before the loop: trim `out_dir`; resolve the
zip path, exiting when it exists; exit when the given input file is missing;
`create_dir_all(out_dir)`; then create the zip file when in zip mode. Returns
the filesystem effects in order, or `none` when the process exits first. -/
def setupEffects (exists_ : String → Bool) (outDir : String)
    (zip : Option String) (inFile : Option String) :
    Option (List SetupEffect) :=
  let od := trimOutDir outDir
  let zipTarget : Option (Option String) :=
    match zip with
    | some zp =>
      match resolveZipPath exists_ zp with
      | some t => some (some t)
      | none => none
    | none => some none
  zipTarget.bind (fun zt =>
    let inOk : Bool :=
      match inFile with
      | some f => exists_ f
      | none => true
    if inOk then
      match zt with
      | some t => some [.createDirAll od, .createZipFile t]
      | none => some [.createDirAll od]
    else none)

/-! ## Lemmas about the greedy quantifier combinators -/

theorem gStar_sound {α : Type} {p : Char → Bool} {k : List Char → Option α}
    {cs cap : List Char} {a : α} (h : gStar p k cs = some (cap, a)) :
    ∃ rest, k rest = some a := by
  induction cs generalizing cap with
  | nil =>
    simp only [gStar, Option.map_eq_some'] at h
    obtain ⟨a', ha, he⟩ := h
    obtain ⟨-, rfl⟩ := Prod.mk.injEq .. ▸ he
    exact ⟨[], ha⟩
  | cons c cs ih =>
    simp only [gStar] at h
    by_cases hp : p c
    · rw [if_pos hp] at h
      cases hg : gStar p k cs with
      | some ca =>
        rw [hg] at h
        obtain ⟨c1, a1⟩ := ca
        simp only [Option.some.injEq, Prod.mk.injEq] at h
        exact ih (h.2 ▸ hg)
      | none =>
        rw [hg, Option.map_eq_some'] at h
        obtain ⟨a', ha, he⟩ := h
        obtain ⟨-, rfl⟩ := Prod.mk.injEq .. ▸ he
        exact ⟨c :: cs, ha⟩
    · rw [if_neg hp, Option.map_eq_some'] at h
      obtain ⟨a', ha, he⟩ := h
      obtain ⟨-, rfl⟩ := Prod.mk.injEq .. ▸ he
      exact ⟨c :: cs, ha⟩

theorem gPlus_sound {α : Type} {p : Char → Bool} {k : List Char → Option α}
    {cs cap : List Char} {a : α} (h : gPlus p k cs = some (cap, a)) :
    cap ≠ [] ∧ ∃ rest, k rest = some a := by
  cases cs with
  | nil => simp [gPlus] at h
  | cons c cs =>
    simp only [gPlus] at h
    by_cases hp : p c
    · rw [if_pos hp, Option.map_eq_some'] at h
      obtain ⟨ca, hca, he⟩ := h
      obtain ⟨c1, a1⟩ := ca
      simp only [Prod.mk.injEq] at he
      exact ⟨he.1 ▸ (by simp), he.2 ▸ gStar_sound hca⟩
    · rw [if_neg hp] at h
      exact absurd h (by simp)

/-- The schema capture always comes from a `\S+` group: it is nonempty. -/
theorem matchMarker_schema_ne {cs : List Char}
    {t : List Char × List Char × List Char} (h : matchMarker cs = some t) :
    t.2.1 ≠ [] := by
  unfold matchMarker at h
  split at h
  case h_2 => exact absurd h (by simp)
  case h_1 r0 =>
    rw [Option.map_eq_some'] at h
    obtain ⟨ca, hca, he⟩ := h
    obtain ⟨r1, h1⟩ := (gPlus_sound hca).2
    rw [contAfterStars, Option.map_eq_some'] at h1
    obtain ⟨ca2, hca2, he2⟩ := h1
    obtain ⟨r2, h2⟩ := (gPlus_sound hca2).2
    rw [contObjectLit, Option.bind_eq_some] at h2
    obtain ⟨r3, -, h3⟩ := h2
    rw [contAfterLit, Option.map_eq_some'] at h3
    obtain ⟨ca3, hca3, he3⟩ := h3
    obtain ⟨r4, h4⟩ := (gPlus_sound hca3).2
    rw [contKind] at h4
    obtain ⟨r5, h5⟩ := (gPlus_sound h4).2
    rw [contAfterKind, Option.map_eq_some'] at h5
    obtain ⟨ca5, hca5, he5⟩ := h5
    obtain ⟨r6, h6⟩ := (gPlus_sound hca5).2
    unfold contOpenBracket at h6
    split at h6
    case h_2 => exact absurd h6 (by simp)
    case h_1 r7 =>
      rw [brackCapture] at h6
      have hb := @gPlus_sound _ _ _ _ ca5.2.1 ca5.2.2 (by rw [h6])
      subst he
      rw [← he2, ← he3, ← he5]
      exact hb.1

/-- Any descriptor the recognizer produces has a nonempty schema. -/
theorem try_from_schema_ne {s : String} {d : DatabaseObject}
    (h : DatabaseObject.try_from s = some d) : d.schema ≠ "" := by
  unfold DatabaseObject.try_from at h
  split at h
  case h_2 => exact absurd h (by simp)
  case h_1 kind schema name hm =>
    have hs : schema ≠ [] := by
      have := matchMarker_schema_ne hm
      simpa using this
    split at h
    case h_2 => exact absurd h (by simp)
    case h_1 t ht =>
      obtain rfl : (⟨t, String.mk schema, String.mk name⟩ : DatabaseObject) = d := by
        simpa using h
      intro hc
      exact hs (by simpa [String.ext_iff] using hc)

/-! ## Exact-match lemmas for well-formed marker lines -/

theorem lit_self (l rest : List Char) : lit l (l ++ rest) = some rest := by
  induction l with
  | nil => rfl
  | cons c l ih => simp [lit, ih]

theorem gStar_exact {α : Type} {p : Char → Bool} {k : List Char → Option α}
    {a rest : List Char} {v : α} (ha : ∀ c ∈ a, p c = true)
    (hrest : ∀ c cs0, rest = c :: cs0 → p c = false)
    (hk : k rest = some v) : gStar p k (a ++ rest) = some (a, v) := by
  induction a with
  | nil =>
    cases hr : rest with
    | nil => subst hr; simp [gStar, hk]
    | cons c cs0 =>
      subst hr
      simp [gStar, hrest c cs0 rfl, hk]
  | cons c a ih =>
    have hp : p c = true := ha c (by simp)
    have ih' := ih (fun x hx => ha x (by simp [hx]))
    simp [gStar, hp, ih']

theorem gPlus_exact {α : Type} {p : Char → Bool} {k : List Char → Option α}
    {a rest : List Char} {v : α} (hne : a ≠ []) (ha : ∀ c ∈ a, p c = true)
    (hrest : ∀ c cs0, rest = c :: cs0 → p c = false)
    (hk : k rest = some v) : gPlus p k (a ++ rest) = some (a, v) := by
  cases a with
  | nil => exact absurd rfl hne
  | cons c a =>
    have hp : p c = true := ha c (by simp)
    have hs : gStar p k (a ++ rest) = some (a, v) :=
      gStar_exact (fun x hx => ha x (by simp [hx])) hrest hk
    simp [gPlus, hp, hs]

theorem closeBr_ne_head {c : Char} {cs : List Char} (h : c ≠ ']') :
    closeBr (c :: cs) = none := by
  unfold closeBr
  split
  · next heq =>
    injection heq with h1 h2
    exact absurd h1 h
  · rfl

theorem closeBrDotOpen_ne_head {c : Char} {cs : List Char} (h : c ≠ ']') :
    closeBrDotOpen (c :: cs) = none := by
  unfold closeBrDotOpen
  split
  · next heq =>
    injection heq with h1 h2
    exact absurd h1 h
  · rfl

theorem closeBrDotOpen_br_ne {c : Char} {cs : List Char} (h : c ≠ '.') :
    closeBrDotOpen (']' :: c :: cs) = none := by
  unfold closeBrDotOpen
  split
  · next heq =>
    injection heq with h1 h2
    injection h2 with h3 h4
    exact absurd h3 h
  · rfl

theorem gStar_closeBr_none {rest0 : List Char} (hrest0 : wsBoundary rest0 = true) :
    gStar isNonSpace closeBr rest0 = none := by
  cases rest0 with
  | nil => simp [gStar, closeBr]
  | cons c cs0 =>
    have hw : c.isWhitespace = true := by simpa [wsBoundary] using hrest0
    have hns : isNonSpace c = false := by simp [isNonSpace, hw]
    have hcb : closeBr (c :: cs0) = none := by
      refine closeBr_ne_head (fun hc => ?_)
      rw [hc] at hw
      exact absurd hw (by decide)
    simp [gStar, hns, hcb]

theorem gStar_closeBr_exact {M rest0 : List Char}
    (hM : ∀ c ∈ M, isNonSpace c = true ∧ c ≠ ']') (hrest0 : wsBoundary rest0 = true) :
    gStar isNonSpace closeBr (M ++ ']' :: rest0) = some (M, ()) := by
  induction M with
  | nil =>
    have hin : gStar isNonSpace closeBr rest0 = none := gStar_closeBr_none hrest0
    simp [gStar, hin, closeBr, isNonSpace]
  | cons c M ih =>
    have hp : isNonSpace c = true := (hM c (by simp)).1
    have ih' := ih (fun x hx => hM x (by simp [hx]))
    simp [gStar, hp, ih']

theorem nameCapture_exact {N rest0 : List Char} (hNne : N ≠ [])
    (hN : ∀ c ∈ N, isNonSpace c = true ∧ c ≠ ']') (hrest0 : wsBoundary rest0 = true) :
    nameCapture (N ++ ']' :: rest0) = some N := by
  cases N with
  | nil => exact absurd rfl hNne
  | cons c N =>
    have hp : isNonSpace c = true := (hN c (by simp)).1
    have hs : gStar isNonSpace closeBr (N ++ ']' :: rest0) = some (N, ()) :=
      gStar_closeBr_exact (fun x hx => hN x (by simp [hx])) hrest0
    simp [nameCapture, gPlus, hp, hs]

theorem gStar_cbdo_deadN {M rest0 : List Char}
    (hM : ∀ c ∈ M, isNonSpace c = true ∧ c ≠ ']') (hrest0 : wsBoundary rest0 = true) :
    gStar isNonSpace closeBrDotOpen (M ++ ']' :: rest0) = none := by
  induction M with
  | nil =>
    have hin : gStar isNonSpace closeBrDotOpen rest0 = none := by
      cases rest0 with
      | nil => simp [gStar, closeBrDotOpen]
      | cons c cs0 =>
        have hw : c.isWhitespace = true := by simpa [wsBoundary] using hrest0
        have hns : isNonSpace c = false := by simp [isNonSpace, hw]
        have hcb : closeBrDotOpen (c :: cs0) = none := by
          refine closeBrDotOpen_ne_head (fun hc => ?_)
          rw [hc] at hw
          exact absurd hw (by decide)
        simp [gStar, hns, hcb]
    have hcb : closeBrDotOpen (']' :: rest0) = none := by
      cases rest0 with
      | nil => rfl
      | cons c cs0 =>
        have hw : c.isWhitespace = true := by simpa [wsBoundary] using hrest0
        refine closeBrDotOpen_br_ne (fun hc => ?_)
        rw [hc] at hw
        exact absurd hw (by decide)
    simp [gStar, hin, hcb, isNonSpace]
  | cons c M ih =>
    have hp : isNonSpace c = true := (hM c (by simp)).1
    have hne : c ≠ ']' := (hM c (by simp)).2
    have ih' := ih (fun x hx => hM x (by simp [hx]))
    simp [gStar, hp, ih', closeBrDotOpen_ne_head hne]

theorem gStar_cbdo_main {S N rest0 : List Char}
    (hS : ∀ c ∈ S, isNonSpace c = true) (hNne : N ≠ [])
    (hN : ∀ c ∈ N, isNonSpace c = true ∧ c ≠ ']') (hrest0 : wsBoundary rest0 = true) :
    gStar isNonSpace closeBrDotOpen
      (S ++ ']' :: '.' :: '[' :: (N ++ ']' :: rest0)) = some (S, N) := by
  induction S with
  | nil =>
    have hin := gStar_cbdo_deadN hN hrest0
    have hname : nameCapture (N ++ ']' :: rest0) = some N :=
      nameCapture_exact hNne hN hrest0
    simp [gStar, hin, closeBrDotOpen, hname, isNonSpace]
  | cons c S ih =>
    have hp : isNonSpace c = true := hS c (List.mem_cons_self c S)
    have ih' := ih (fun x hx => hS x (List.mem_cons_of_mem c hx))
    simp [gStar, hp, ih']

theorem brackCapture_exact {S N rest0 : List Char} (hSne : S ≠ [])
    (hS : ∀ c ∈ S, isNonSpace c = true) (hNne : N ≠ [])
    (hN : ∀ c ∈ N, isNonSpace c = true ∧ c ≠ ']') (hrest0 : wsBoundary rest0 = true) :
    brackCapture (S ++ ']' :: '.' :: '[' :: (N ++ ']' :: rest0)) =
      some (S, N) := by
  cases S with
  | nil => exact absurd rfl hSne
  | cons c S =>
    have hp : isNonSpace c = true := hS c (List.mem_cons_self c S)
    have hs := gStar_cbdo_main (fun x hx => hS x (List.mem_cons_of_mem c hx))
      hNne hN hrest0
    simp [brackCapture, gPlus, hp, hs]

theorem head_of_append_mem {a r : List Char} {c : Char} {cs0 : List Char}
    (hne : a ≠ []) (heq : a ++ r = c :: cs0) : c ∈ a := by
  cases a with
  | nil => exact absurd rfl hne
  | cons a0 a1 =>
    injection heq with h1 h2
    rw [← h1]
    exact List.mem_cons_self a0 a1

/-- On a well-formed marker line, the recognizer regex returns exactly the
kind, schema and name runs. -/
theorem matchMarker_wf (stars ws1 ws2 kind ws3 S N rest0 : List Char)
    (hstars : stars ≠ [] ∧ ∀ c ∈ stars, c = '*')
    (hws1 : ws1 ≠ [] ∧ ∀ c ∈ ws1, c.isWhitespace = true)
    (hws2 : ws2 ≠ [] ∧ ∀ c ∈ ws2, c.isWhitespace = true)
    (hkind : kind ≠ [] ∧ ∀ c ∈ kind, isWordChar c = true ∧ c.isWhitespace = false)
    (hws3 : ws3 ≠ [] ∧ ∀ c ∈ ws3, c.isWhitespace = true ∧ isWordChar c = false)
    (hS : S ≠ [] ∧ ∀ c ∈ S, isNonSpace c = true)
    (hN : N ≠ [] ∧ ∀ c ∈ N, isNonSpace c = true ∧ c ≠ ']')
    (hrest0 : wsBoundary rest0 = true) :
    matchMarker ('/' :: (stars ++ (ws1 ++ ("Object:".data ++ (ws2 ++ (kind ++
      (ws3 ++ ('[' :: (S ++ (']' :: '.' :: '[' :: (N ++ (']' :: rest0))))))))))))
      = some (kind, S, N) := by
  have h7 : contOpenBracket
      ('[' :: (S ++ (']' :: '.' :: '[' :: (N ++ (']' :: rest0))))) =
      some (S, N) := by
    show brackCapture (S ++ ']' :: '.' :: '[' :: (N ++ ']' :: rest0)) = some (S, N)
    exact brackCapture_exact hS.1 hS.2 hN.1 hN.2 hrest0
  have h6 : contAfterKind
      (ws3 ++ ('[' :: (S ++ (']' :: '.' :: '[' :: (N ++ (']' :: rest0)))))) =
      some (S, N) := by
    unfold contAfterKind
    rw [gPlus_exact hws3.1 (fun c hc => (hws3.2 c hc).1)
      (fun c cs0 heq => by
        injection heq with h1 h2
        rw [← h1]
        decide) h7]
    rfl
  have h5 : contKind (kind ++ (ws3 ++ ('[' :: (S ++
      (']' :: '.' :: '[' :: (N ++ (']' :: rest0))))))) = some (kind, S, N) := by
    unfold contKind
    rw [gPlus_exact hkind.1 (fun c hc => (hkind.2 c hc).1)
      (fun c cs0 heq => (hws3.2 c (head_of_append_mem hws3.1 heq)).2) h6]
  have h4 : contAfterLit (ws2 ++ (kind ++ (ws3 ++ ('[' :: (S ++
      (']' :: '.' :: '[' :: (N ++ (']' :: rest0)))))))) = some (kind, S, N) := by
    unfold contAfterLit
    rw [gPlus_exact hws2.1 hws2.2
      (fun c cs0 heq => (hkind.2 c (head_of_append_mem hkind.1 heq)).2) h5]
    rfl
  have h3 : contObjectLit ("Object:".data ++ (ws2 ++ (kind ++ (ws3 ++ ('[' :: (S ++
      (']' :: '.' :: '[' :: (N ++ (']' :: rest0))))))))) = some (kind, S, N) := by
    unfold contObjectLit
    rw [lit_self]
    exact h4
  have h2 : contAfterStars (ws1 ++ ("Object:".data ++ (ws2 ++ (kind ++ (ws3 ++
      ('[' :: (S ++ (']' :: '.' :: '[' :: (N ++ (']' :: rest0)))))))))) =
      some (kind, S, N) := by
    unfold contAfterStars
    rw [gPlus_exact hws1.1 hws1.2
      (fun c cs0 heq => by
        have hm : c ∈ "Object:".data := head_of_append_mem (by decide) heq
        exact (by decide : ∀ x ∈ "Object:".data, x.isWhitespace = false) c hm) h3]
    rfl
  have h1 : gPlus (fun c => c = '*') contAfterStars (stars ++ (ws1 ++
      ("Object:".data ++ (ws2 ++ (kind ++ (ws3 ++ ('[' :: (S ++
      (']' :: '.' :: '[' :: (N ++ (']' :: rest0))))))))))) =
      some (stars, (kind, S, N)) := by
    refine gPlus_exact hstars.1 (fun c hc => ?_)
      (fun c cs0 heq => ?_) h2
    · rw [hstars.2 c hc]
      decide
    · have hm : c.isWhitespace = true := hws1.2 c (head_of_append_mem hws1.1 heq)
      refine decide_eq_false (fun hh => ?_)
      rw [hh] at hm
      exact absurd hm (by decide)
  simp only [matchMarker, h1, Option.map_some']

/-- `try_from` on a well-formed marker line is exactly the kind dispatch over
the captured runs. -/
theorem try_from_markerLine (stars ws1 ws2 kind ws3 schema name rest : String)
    (hstars : stars.data ≠ [] ∧ ∀ c ∈ stars.data, c = '*')
    (hws1 : ws1.data ≠ [] ∧ ∀ c ∈ ws1.data, c.isWhitespace = true)
    (hws2 : ws2.data ≠ [] ∧ ∀ c ∈ ws2.data, c.isWhitespace = true)
    (hkind : kind.data ≠ [] ∧
      ∀ c ∈ kind.data, isWordChar c = true ∧ c.isWhitespace = false)
    (hws3 : ws3.data ≠ [] ∧
      ∀ c ∈ ws3.data, c.isWhitespace = true ∧ isWordChar c = false)
    (hS : schema.data ≠ [] ∧ ∀ c ∈ schema.data, isNonSpace c = true)
    (hN : name.data ≠ [] ∧ ∀ c ∈ name.data, isNonSpace c = true ∧ c ≠ ']')
    (hrest0 : wsBoundary rest.data = true) :
    DatabaseObject.try_from (markerLine stars ws1 ws2 kind ws3 schema name rest)
      = (objectTypeOfString kind).map (fun t => ⟨t, schema, name⟩) := by
  have hdata : (markerLine stars ws1 ws2 kind ws3 schema name rest).data =
      '/' :: (stars.data ++ (ws1.data ++ ("Object:".data ++ (ws2.data ++
        (kind.data ++ (ws3.data ++ ('[' :: (schema.data ++ (']' :: '.' :: '[' ::
          (name.data ++ (']' :: rest.data))))))))))) := by
    show ("/" ++ stars ++ ws1 ++ "Object:" ++ ws2 ++ kind ++ ws3 ++ "[" ++
      schema ++ "].[" ++ name ++ "]" ++ rest).data = _
    simp only [String.data_append, List.append_assoc]
    rfl
  have hmm := matchMarker_wf stars.data ws1.data ws2.data kind.data ws3.data
    schema.data name.data rest.data hstars hws1 hws2 hkind hws3 hS hN hrest0
  unfold DatabaseObject.try_from
  rw [hdata, hmm]
  show (match objectTypeOfString kind with
    | some t => some (⟨t, schema, name⟩ : DatabaseObject)
    | none => none) = _
  cases ho : objectTypeOfString kind with
  | some t => rfl
  | none => rfl

/-- The display name of every kind dispatches back to that kind. -/
theorem objectTypeOfString_display (t : ObjectType) :
    objectTypeOfString t.display = some t := by
  cases t <;> rfl

/-- Any kind token outside the closed set of fourteen names is rejected. -/
theorem objectTypeOfString_notin {s : String} (h : s ∉ kindNames) :
    objectTypeOfString s = none := by
  simp only [kindNames, List.mem_cons, List.not_mem_nil, or_false, not_or] at h
  obtain ⟨h1, h2, h3, h4, h5, h6, h7, h8, h9, h10, h11, h12, h13, h14⟩ := h
  simp [objectTypeOfString, h1, h2, h3, h4, h5, h6, h7, h8, h9, h10, h11, h12,
    h13, h14]


/-! ## Step lemmas for the loose-file loop -/

theorem runLoose_nil (outDir : String) (onlyNames : Bool) (st : LState) :
    runLoose outDir onlyNames [] st = st := rfl

theorem runLoose_cons_use {l : String} (outDir : String) (onlyNames : Bool)
    (g : String) (r2 : List String) (st : LState)
    (hu : strStartsWith l "USE " = true) :
    runLoose outDir onlyNames (l :: g :: r2) st =
      runLoose outDir onlyNames r2 { st with preamble := l ++ g } := by
  simp [runLoose, hu]

theorem runLoose_use_last {l : String} (outDir : String) (onlyNames : Bool)
    (st : LState) (hu : strStartsWith l "USE " = true) :
    runLoose outDir onlyNames [l] st = { st with preamble := l } := by
  simp [runLoose, hu]

theorem runLoose_cons_marker {l : String} {obj : DatabaseObject}
    (outDir : String) (onlyNames : Bool) (rest : List String) (st : LState)
    (hu : strStartsWith l "USE " = false)
    (hm : strStartsWith l "/****** Object:" = true)
    (ho : DatabaseObject.try_from l = some obj) :
    runLoose outDir onlyNames (l :: rest) st =
      runLoose outDir onlyNames rest
        { preamble := st.preamble,
          current := some
            { path := objPath onlyNames outDir obj,
              preamble := st.preamble, marker := l, body := "" },
          closed := st.closed ++ st.current.toList } := by
  rw [runLoose.eq_def]
  simp [hu, hm, ho]

theorem runLoose_cons_badMarker {l : String} (outDir : String)
    (onlyNames : Bool) (rest : List String) (st : LState)
    (hu : strStartsWith l "USE " = false)
    (hm : strStartsWith l "/****** Object:" = true)
    (ho : DatabaseObject.try_from l = none) :
    runLoose outDir onlyNames (l :: rest) st =
      runLoose outDir onlyNames rest st := by
  rw [runLoose.eq_def]
  simp [hu, hm, ho]

theorem runLoose_cons_other {l : String} (outDir : String) (onlyNames : Bool)
    (rest : List String) (st : LState)
    (hu : strStartsWith l "USE " = false)
    (hm : strStartsWith l "/****** Object:" = false) :
    runLoose outDir onlyNames (l :: rest) st =
      runLoose outDir onlyNames rest (writeLine st l) := by
  rw [runLoose.eq_def]
  simp [hu, hm]

theorem writeLine_preamble (st : LState) (l : String) :
    (writeLine st l).preamble = st.preamble := by
  cases hc : st.current <;> simp [writeLine, hc]

theorem writeLine_closed (st : LState) (l : String) :
    (writeLine st l).closed = st.closed := by
  cases hc : st.current <;> simp [writeLine, hc]

theorem writeLine_current_isSome (st : LState) (l : String) :
    (writeLine st l).current.isSome = st.current.isSome := by
  cases hc : st.current <;> simp [writeLine, hc]

/-! ## Structural lemmas for the loose-file loop -/

/-- Processing lines none of which is a context switch is compositional. -/
theorem runLoose_append_noUse (outDir : String) (onlyNames : Bool)
    (mid ys : List String) (st : LState)
    (h : ∀ l ∈ mid, strStartsWith l "USE " = false) :
    runLoose outDir onlyNames (mid ++ ys) st =
      runLoose outDir onlyNames ys (runLoose outDir onlyNames mid st) := by
  induction mid generalizing st with
  | nil => rfl
  | cons l mid ih =>
    have hl : strStartsWith l "USE " = false := h l (List.mem_cons_self l mid)
    have h2 : ∀ x ∈ mid, strStartsWith x "USE " = false :=
      fun x hx => h x (List.mem_cons_of_mem l hx)
    cases hm : strStartsWith l "/****** Object:" with
    | true =>
      cases ho : DatabaseObject.try_from l with
      | some obj =>
        rw [List.cons_append, runLoose_cons_marker _ _ _ _ hl hm ho,
          runLoose_cons_marker _ _ _ _ hl hm ho, ih _ h2]
      | none =>
        rw [List.cons_append, runLoose_cons_badMarker _ _ _ _ hl hm ho,
          runLoose_cons_badMarker _ _ _ _ hl hm ho, ih _ h2]
    | false =>
      rw [List.cons_append, runLoose_cons_other _ _ _ _ hl hm,
        runLoose_cons_other _ _ _ _ hl hm, ih _ h2]

/-- Lines that are not context switches leave `db_use_statement` unchanged. -/
theorem runLoose_preamble_noUse (outDir : String) (onlyNames : Bool)
    (mid : List String) (st : LState)
    (h : ∀ l ∈ mid, strStartsWith l "USE " = false) :
    (runLoose outDir onlyNames mid st).preamble = st.preamble := by
  induction mid generalizing st with
  | nil => rfl
  | cons l mid ih =>
    have hl : strStartsWith l "USE " = false := h l (List.mem_cons_self l mid)
    have h2 : ∀ x ∈ mid, strStartsWith x "USE " = false :=
      fun x hx => h x (List.mem_cons_of_mem l hx)
    cases hm : strStartsWith l "/****** Object:" with
    | true =>
      cases ho : DatabaseObject.try_from l with
      | some obj => rw [runLoose_cons_marker _ _ _ _ hl hm ho, ih _ h2]
      | none => rw [runLoose_cons_badMarker _ _ _ _ hl hm ho, ih _ h2]
    | false =>
      rw [runLoose_cons_other _ _ _ _ hl hm, ih _ h2, writeLine_preamble]

/-- Already-flushed files are never touched again: `closed` only grows. -/
theorem runLoose_closed_prefix_aux (outDir : String) (onlyNames : Bool) :
    ∀ (fuel : Nat) (lines : List String) (st : LState),
      lines.length ≤ fuel →
      ∃ t, (runLoose outDir onlyNames lines st).closed = st.closed ++ t := by
  intro fuel
  induction fuel with
  | zero =>
    intro lines st h
    have : lines = [] := List.length_eq_zero.mp (Nat.le_zero.mp h)
    subst this
    exact ⟨[], by simp [runLoose_nil]⟩
  | succ n ih =>
    intro lines st h
    rcases lines with - | ⟨l, rest⟩
    · exact ⟨[], by simp [runLoose_nil]⟩
    cases hu : strStartsWith l "USE " with
    | true =>
      rcases rest with - | ⟨g, r2⟩
      · exact ⟨[], by rw [runLoose_use_last _ _ _ hu]; simp⟩
      · rw [runLoose_cons_use _ _ _ _ _ hu]
        have hlen : r2.length ≤ n := by simp at h; omega
        exact ih r2 _ hlen
    | false =>
      have hlen : rest.length ≤ n := by simp at h; omega
      cases hm : strStartsWith l "/****** Object:" with
      | true =>
        cases ho : DatabaseObject.try_from l with
        | some obj =>
          rw [runLoose_cons_marker _ _ _ _ hu hm ho]
          obtain ⟨t, ht⟩ := ih rest _ hlen
          exact ⟨st.current.toList ++ t, by rw [ht]; simp⟩
        | none =>
          rw [runLoose_cons_badMarker _ _ _ _ hu hm ho]
          exact ih rest st hlen
      | false =>
        rw [runLoose_cons_other _ _ _ _ hu hm]
        obtain ⟨t, ht⟩ := ih rest _ hlen
        exact ⟨t, by rw [ht, writeLine_closed]⟩

theorem runLoose_closed_prefix (outDir : String) (onlyNames : Bool)
    (lines : List String) (st : LState) :
    ∃ t, (runLoose outDir onlyNames lines st).closed = st.closed ++ t :=
  runLoose_closed_prefix_aux outDir onlyNames lines.length lines st le_rfl

/-- Once a writer is open, some writer stays open for the rest of the run. -/
theorem runLoose_current_isSome_aux (outDir : String) (onlyNames : Bool) :
    ∀ (fuel : Nat) (lines : List String) (st : LState),
      lines.length ≤ fuel → st.current.isSome = true →
      (runLoose outDir onlyNames lines st).current.isSome = true := by
  intro fuel
  induction fuel with
  | zero =>
    intro lines st h hc
    have : lines = [] := List.length_eq_zero.mp (Nat.le_zero.mp h)
    subst this
    exact hc
  | succ n ih =>
    intro lines st h hc
    rcases lines with - | ⟨l, rest⟩
    · exact hc
    cases hu : strStartsWith l "USE " with
    | true =>
      rcases rest with - | ⟨g, r2⟩
      · rw [runLoose_use_last _ _ _ hu]; exact hc
      · rw [runLoose_cons_use _ _ _ _ _ hu]
        have hlen : r2.length ≤ n := by simp at h; omega
        exact ih r2 _ hlen hc
    | false =>
      have hlen : rest.length ≤ n := by simp at h; omega
      cases hm : strStartsWith l "/****** Object:" with
      | true =>
        cases ho : DatabaseObject.try_from l with
        | some obj =>
          rw [runLoose_cons_marker _ _ _ _ hu hm ho]
          exact ih rest _ hlen rfl
        | none =>
          rw [runLoose_cons_badMarker _ _ _ _ hu hm ho]
          exact ih rest st hlen hc
      | false =>
        rw [runLoose_cons_other _ _ _ _ hu hm]
        exact ih rest _ hlen (by rw [writeLine_current_isSome]; exact hc)

/-- The sink open at some point of the run keeps its identity (path, preamble,
marker line) and its position in creation order to the end of the run; only
its body grows. -/
theorem runLoose_current_persists_aux (outDir : String) (onlyNames : Bool) :
    ∀ (fuel : Nat) (lines : List String) (st : LState) (s : Sink),
      lines.length ≤ fuel → st.current = some s →
      ∃ b, (allSinks (runLoose outDir onlyNames lines st))[st.closed.length]? =
        some ⟨s.path, s.preamble, s.marker, b⟩ := by
  intro fuel
  induction fuel with
  | zero =>
    intro lines st s h hc
    have : lines = [] := List.length_eq_zero.mp (Nat.le_zero.mp h)
    subst this
    refine ⟨s.body, ?_⟩
    simp [runLoose_nil, allSinks, hc]
  | succ n ih =>
    intro lines st s h hc
    rcases lines with - | ⟨l, rest⟩
    · refine ⟨s.body, ?_⟩
      simp [runLoose_nil, allSinks, hc]
    cases hu : strStartsWith l "USE " with
    | true =>
      rcases rest with - | ⟨g, r2⟩
      · refine ⟨s.body, ?_⟩
        rw [runLoose_use_last _ _ _ hu]
        simp [allSinks, hc]
      · rw [runLoose_cons_use _ _ _ _ _ hu]
        have hlen : r2.length ≤ n := by simp at h; omega
        exact ih r2 _ s hlen hc
    | false =>
      have hlen : rest.length ≤ n := by simp at h; omega
      cases hm : strStartsWith l "/****** Object:" with
      | true =>
        cases ho : DatabaseObject.try_from l with
        | some obj =>
          rw [runLoose_cons_marker _ _ _ _ hu hm ho]
          obtain ⟨t, ht⟩ := runLoose_closed_prefix outDir onlyNames rest
            { preamble := st.preamble,
              current := some
                { path := objPath onlyNames outDir obj,
                  preamble := st.preamble, marker := l, body := "" },
              closed := st.closed ++ st.current.toList }
          refine ⟨s.body, ?_⟩
          rw [allSinks, ht]
          simp only [hc, Option.toList_some]
          rw [List.append_assoc, List.append_assoc,
            List.getElem?_append_right le_rfl]
          simp
        | none =>
          rw [runLoose_cons_badMarker _ _ _ _ hu hm ho]
          exact ih rest st s hlen hc
      | false =>
        rw [runLoose_cons_other _ _ _ _ hu hm]
        have hc2 : (writeLine st l).current = some
            { path := s.path, preamble := s.preamble, marker := s.marker,
              body := s.body ++ l } := by
          simp [writeLine, hc]
        obtain ⟨b, hb⟩ := ih rest (writeLine st l) _ hlen hc2
        refine ⟨b, ?_⟩
        rw [writeLine_closed] at hb
        exact hb


/-! ## Correspondence between produced sinks and recognized markers -/

theorem recognizedMarkers_use {l : String} (g : String) (r2 : List String)
    (hu : strStartsWith l "USE " = true) :
    recognizedMarkers (l :: g :: r2) = recognizedMarkers r2 := by
  rw [recognizedMarkers.eq_def]
  simp [hu]

theorem recognizedMarkers_use_last {l : String}
    (hu : strStartsWith l "USE " = true) : recognizedMarkers [l] = [] := by
  rw [recognizedMarkers.eq_def]
  simp [hu]

theorem recognizedMarkers_marker {l : String} {obj : DatabaseObject}
    (rest : List String) (hu : strStartsWith l "USE " = false)
    (hm : strStartsWith l "/****** Object:" = true)
    (ho : DatabaseObject.try_from l = some obj) :
    recognizedMarkers (l :: rest) = (l, obj) :: recognizedMarkers rest := by
  rw [recognizedMarkers.eq_def]
  simp [hu, hm, ho]

theorem recognizedMarkers_badMarker {l : String} (rest : List String)
    (hu : strStartsWith l "USE " = false)
    (hm : strStartsWith l "/****** Object:" = true)
    (ho : DatabaseObject.try_from l = none) :
    recognizedMarkers (l :: rest) = recognizedMarkers rest := by
  rw [recognizedMarkers.eq_def]
  simp [hu, hm, ho]

theorem recognizedMarkers_other {l : String} (rest : List String)
    (hu : strStartsWith l "USE " = false)
    (hm : strStartsWith l "/****** Object:" = false) :
    recognizedMarkers (l :: rest) = recognizedMarkers rest := by
  rw [recognizedMarkers.eq_def]
  simp [hu, hm]

theorem writeLine_allSinks_map (st : LState) (l : String) :
    (allSinks (writeLine st l)).map (fun s => (s.marker, s.path)) =
      (allSinks st).map (fun s => (s.marker, s.path)) := by
  cases hc : st.current <;> simp [writeLine, allSinks, hc]

theorem runLoose_allSinks_map_aux (outDir : String) (onlyNames : Bool) :
    ∀ (fuel : Nat) (lines : List String) (st : LState),
      lines.length ≤ fuel →
      (allSinks (runLoose outDir onlyNames lines st)).map
          (fun s => (s.marker, s.path)) =
        (allSinks st).map (fun s => (s.marker, s.path)) ++
          (recognizedMarkers lines).map
            (fun q => (q.1, objPath onlyNames outDir q.2)) := by
  intro fuel
  induction fuel with
  | zero =>
    intro lines st h
    have : lines = [] := List.length_eq_zero.mp (Nat.le_zero.mp h)
    subst this
    simp [runLoose_nil, recognizedMarkers]
  | succ n ih =>
    intro lines st h
    rcases lines with - | ⟨l, rest⟩
    · simp [runLoose_nil, recognizedMarkers]
    cases hu : strStartsWith l "USE " with
    | true =>
      rcases rest with - | ⟨g, r2⟩
      · rw [runLoose_use_last _ _ _ hu, recognizedMarkers_use_last hu]
        simp [allSinks]
      · rw [runLoose_cons_use _ _ _ _ _ hu, recognizedMarkers_use _ _ hu]
        have hlen : r2.length ≤ n := by simp at h; omega
        rw [ih r2 _ hlen]
        simp [allSinks]
    | false =>
      have hlen : rest.length ≤ n := by simp at h; omega
      cases hm : strStartsWith l "/****** Object:" with
      | true =>
        cases ho : DatabaseObject.try_from l with
        | some obj =>
          rw [runLoose_cons_marker _ _ _ _ hu hm ho,
            recognizedMarkers_marker _ hu hm ho, ih rest _ hlen]
          simp [allSinks]
        | none =>
          rw [runLoose_cons_badMarker _ _ _ _ hu hm ho,
            recognizedMarkers_badMarker _ hu hm ho]
          exact ih rest st hlen
      | false =>
        rw [runLoose_cons_other _ _ _ _ hu hm,
          recognizedMarkers_other _ hu hm, ih rest _ hlen,
          writeLine_allSinks_map]


/-! ## Lemmas about the zip branch -/

theorem appendToLast_map_name (es : List ZEntry) (s : String) :
    (appendToLast es s).map ZEntry.name = es.map ZEntry.name := by
  induction es with
  | nil => rfl
  | cons e es ih =>
    cases es with
    | nil => cases e <;> simp [appendToLast, ZEntry.name]
    | cons e2 es2 =>
      rw [show appendToLast (e :: e2 :: es2) s =
        e :: appendToLast (e2 :: es2) s from rfl]
      simp only [List.map_cons]
      rw [ih]
      simp

theorem zipWrite_spec {z z' : ZipSt} {s : String} (h : zipWrite z s = some z') :
    z'.entries.map ZEntry.name = z.entries.map ZEntry.name ∧
      z'.writingToFile = z.writingToFile := by
  unfold zipWrite at h
  by_cases hw : z.writingToFile
  · rw [if_pos hw] at h
    obtain rfl : _ = z' := by simpa using h
    exact ⟨appendToLast_map_name z.entries s, rfl⟩
  · rw [if_neg hw] at h
    exact absurd h (by simp)

theorem flushBuf_spec {w w' : ZBuf} (h : flushBuf w = some w') :
    w'.zip.entries.map ZEntry.name = w.zip.entries.map ZEntry.name ∧
      w'.zip.writingToFile = w.zip.writingToFile := by
  unfold flushBuf at h
  by_cases hb : w.buf = ""
  · rw [if_pos hb] at h
    obtain rfl : w = w' := by simpa using h
    exact ⟨rfl, rfl⟩
  · rw [if_neg hb, Option.map_eq_some'] at h
    obtain ⟨z, hz, rfl⟩ := h
    exact zipWrite_spec hz

theorem bwWrite_spec {w w' : ZBuf} {s : String} (h : bwWrite w s = some w') :
    w'.zip.entries.map ZEntry.name = w.zip.entries.map ZEntry.name ∧
      w'.zip.writingToFile = w.zip.writingToFile := by
  unfold bwWrite at h
  rw [Option.bind_eq_some] at h
  obtain ⟨w1, h1, h2⟩ := h
  have hs1 : w1.zip.entries.map ZEntry.name = w.zip.entries.map ZEntry.name ∧
      w1.zip.writingToFile = w.zip.writingToFile := by
    by_cases hc : bwCap < w.buf.utf8ByteSize + s.utf8ByteSize
    · rw [if_pos hc] at h1
      exact flushBuf_spec h1
    · rw [if_neg hc] at h1
      obtain rfl : w = w1 := by simpa using h1
      exact ⟨rfl, rfl⟩
  by_cases hc2 : bwCap ≤ s.utf8ByteSize
  · rw [if_pos hc2, Option.map_eq_some'] at h2
    obtain ⟨z, hz, rfl⟩ := h2
    have := zipWrite_spec hz
    exact ⟨this.1.trans hs1.1, this.2.trans hs1.2⟩
  · rw [if_neg hc2] at h2
    obtain rfl : _ = w' := by simpa using h2
    exact hs1

theorem bwWrite_total {w : ZBuf} (s : String)
    (hw : w.zip.writingToFile = true) : ∃ w', bwWrite w s = some w' := by
  unfold bwWrite
  have hflush : ∃ w1, flushBuf w = some w1 ∧ w1.zip.writingToFile = true := by
    unfold flushBuf
    by_cases hb : w.buf = ""
    · exact ⟨w, by rw [if_pos hb], hw⟩
    · refine ⟨⟨"", { w.zip with entries := appendToLast w.zip.entries w.buf }⟩,
        ?_, hw⟩
      rw [if_neg hb]
      simp [zipWrite, hw]
  obtain ⟨w1, hw1, hwtf1⟩ := hflush
  have zipWrite_total : ∀ (z : ZipSt) (s2 : String), z.writingToFile = true →
      zipWrite z s2 = some { z with entries := appendToLast z.entries s2 } :=
    fun z s2 hz => by simp [zipWrite, hz]
  by_cases hc : bwCap < w.buf.utf8ByteSize + s.utf8ByteSize
  · rw [if_pos hc, hw1]
    by_cases hc2 : bwCap ≤ s.utf8ByteSize
    · simp only [Option.some_bind, if_pos hc2]
      refine ⟨{ w1 with zip := { w1.zip with
        entries := appendToLast w1.zip.entries s } }, ?_⟩
      rw [zipWrite_total w1.zip s hwtf1]
      rfl
    · simp only [Option.some_bind, if_neg hc2]
      exact ⟨_, rfl⟩
  · rw [if_neg hc]
    by_cases hc2 : bwCap ≤ s.utf8ByteSize
    · simp only [Option.some_bind, if_pos hc2]
      refine ⟨{ w with zip := { w.zip with
        entries := appendToLast w.zip.entries s } }, ?_⟩
      rw [zipWrite_total w.zip s hw]
      rfl
    · simp only [Option.some_bind, if_neg hc2]
      exact ⟨_, rfl⟩

/-- The zip branch's sink creation always succeeds and adds exactly one entry,
named by the kind directory and the `make_path` filename, in order. -/
theorem zipCreateSink_spec (zipParent : String) (onlyNames : Bool)
    (pre l : String) (obj : DatabaseObject) (w : ZBuf) :
    ∃ w', zipCreateSink zipParent onlyNames pre l obj w = some w' ∧
      w'.zip.entries.map ZEntry.name =
        w.zip.entries.map ZEntry.name ++ [objPath onlyNames zipParent obj] ∧
      w'.zip.writingToFile = true := by
  unfold zipCreateSink
  set w1 : ZBuf :=
    { w with zip := startFile w.zip (objPath onlyNames zipParent obj) } with hw1
  have hwtf : w1.zip.writingToFile = true := by simp [hw1, startFile]
  obtain ⟨w2, hw2⟩ := bwWrite_total pre hwtf
  have hs2 := bwWrite_spec hw2
  obtain ⟨w3, hw3⟩ := bwWrite_total l (hs2.2.trans hwtf)
  have hs3 := bwWrite_spec hw3
  refine ⟨w3, ?_, ?_, hs3.2.trans (hs2.2.trans hwtf)⟩
  · rw [hw2]
    simpa using hw3
  · rw [hs3.1, hs2.1]
    simp [hw1, startFile, ZEntry.name]

/-! ## Step lemmas for the zip loop -/

theorem runZipLoop_cons_use {l : String} (zipParent : String)
    (onlyNames : Bool) (g : String) (r2 : List String) (pre : String)
    (w : ZBuf) (hu : strStartsWith l "USE " = true) :
    runZipLoop zipParent onlyNames (l :: g :: r2) pre w =
      runZipLoop zipParent onlyNames r2 (l ++ g) w := by
  rw [runZipLoop.eq_def]
  simp [hu]

theorem runZipLoop_use_last {l : String} (zipParent : String)
    (onlyNames : Bool) (pre : String) (w : ZBuf)
    (hu : strStartsWith l "USE " = true) :
    runZipLoop zipParent onlyNames [l] pre w = some (l, w) := by
  rw [runZipLoop.eq_def]
  simp [hu]

theorem runZipLoop_cons_badMarker {l : String} (zipParent : String)
    (onlyNames : Bool) (rest : List String) (pre : String) (w : ZBuf)
    (hu : strStartsWith l "USE " = false)
    (hm : strStartsWith l "/****** Object:" = true)
    (ho : DatabaseObject.try_from l = none) :
    runZipLoop zipParent onlyNames (l :: rest) pre w =
      runZipLoop zipParent onlyNames rest pre w := by
  rw [runZipLoop.eq_def]
  simp [hu, hm, ho]


/-! ## Auxiliary path lemmas -/

theorem objPath_explicit (onlyNames : Bool) (d : String) (obj : DatabaseObject) :
    objPath onlyNames d obj = d ++ "/" ++ obj.object_type.display ++ "/" ++
      (if onlyNames || obj.schema = "" then obj.name ++ ".sql"
       else obj.schema ++ "." ++ obj.name ++ ".sql") := by
  unfold objPath make_path
  by_cases hc : (onlyNames || obj.schema = "") = true
  · rw [if_pos hc, if_pos hc]
    simp [String.append_assoc]
  · rw [if_neg hc, if_neg hc]
    simp [String.append_assoc]

theorem splitLast_eq_none {sep : Char} {cs : List Char} (h : sep ∉ cs) :
    splitLast sep cs = none := by
  induction cs with
  | nil => rfl
  | cons c rest ih =>
    have hc : c ≠ sep := fun hcc => h (hcc ▸ List.mem_cons_self c rest)
    have hr : sep ∉ rest := fun hm => h (List.mem_cons_of_mem c hm)
    simp [splitLast, ih hr, hc]

/-! ## Claim theorems -/

/-- C3 counterexample: the claim asserts the recognizer accepts some marker
carrying only a bracketed name, yielding an empty schema; on the code no
input ever produces a descriptor with empty schema (the regex demands the
two-part `[S].[N]` form and `\S+` captures are nonempty). -/
theorem C3_counterexample :
    ¬ ∃ (s : String) (d : DatabaseObject),
      DatabaseObject.try_from s = some d ∧ d.schema = "" := by
  rintro ⟨s, d, h, hs⟩
  exact try_from_schema_ne h hs

/-- C3 (amended): the recognizer requires both bracketed parts; a marker line
carrying only a bracketed name is rejected, and every produced descriptor has
a nonempty schema. -/
theorem C3_schema_never_empty :
    DatabaseObject.try_from "/****** Object:  View [OnlyName]    ******/" =
      none ∧
    ∀ (s : String) (d : DatabaseObject),
      DatabaseObject.try_from s = some d → d.schema ≠ "" :=
  ⟨by decide, fun _ _ h => try_from_schema_ne h⟩

/-- Witness for C3: the amended theorem applied at a concrete two-part marker
line, whose recognized schema `dbo` is indeed nonempty. -/
theorem C3_schema_never_empty_witness :
    (⟨ObjectType.View, "dbo", "V1"⟩ : DatabaseObject).schema ≠ "" :=
  C3_schema_never_empty.2 "/****** Object:  View [dbo].[V1]    ******/"
    ⟨ObjectType.View, "dbo", "V1"⟩ (by decide)

/-- C6: on every well-formed marker line `/***… Object: <Kind> [<S>].[<N>] …`
the recognizer returns exactly the triple (Kind, S, N) — the kind token is
dispatched case-sensitively over the closed set of fourteen names, every
display name dispatches to its own kind, and any token outside the set yields
no match. -/
theorem C6_marker_roundtrip (stars ws1 ws2 kind ws3 schema name rest : String)
    (hstars : stars.data ≠ [] ∧ ∀ c ∈ stars.data, c = '*')
    (hws1 : ws1.data ≠ [] ∧ ∀ c ∈ ws1.data, c.isWhitespace = true)
    (hws2 : ws2.data ≠ [] ∧ ∀ c ∈ ws2.data, c.isWhitespace = true)
    (hkind : kind.data ≠ [] ∧
      ∀ c ∈ kind.data, isWordChar c = true ∧ c.isWhitespace = false)
    (hws3 : ws3.data ≠ [] ∧
      ∀ c ∈ ws3.data, c.isWhitespace = true ∧ isWordChar c = false)
    (hS : schema.data ≠ [] ∧ ∀ c ∈ schema.data, isNonSpace c = true)
    (hN : name.data ≠ [] ∧ ∀ c ∈ name.data, isNonSpace c = true ∧ c ≠ ']')
    (hrest0 : wsBoundary rest.data = true) :
    DatabaseObject.try_from (markerLine stars ws1 ws2 kind ws3 schema name rest)
        = (objectTypeOfString kind).map (fun t => ⟨t, schema, name⟩) ∧
      (∀ t : ObjectType, objectTypeOfString t.display = some t) ∧
      (∀ s : String, s ∉ kindNames → objectTypeOfString s = none) :=
  ⟨try_from_markerLine stars ws1 ws2 kind ws3 schema name rest hstars hws1 hws2
      hkind hws3 hS hN hrest0,
    objectTypeOfString_display, fun _ h => objectTypeOfString_notin h⟩

/-- Witness for C6: the round-trip at the concrete marker line
`/****** Object:  View [dbo].[V1]    ******/`. -/
theorem C6_marker_roundtrip_witness :
    DatabaseObject.try_from
        (markerLine "******" " " " " "View" " " "dbo" "V1" "    ******/")
        = (objectTypeOfString "View").map (fun t => ⟨t, "dbo", "V1"⟩) ∧
      (∀ t : ObjectType, objectTypeOfString t.display = some t) ∧
      (∀ s : String, s ∉ kindNames → objectTypeOfString s = none) :=
  C6_marker_roundtrip "******" " " " " "View" " " "dbo" "V1" "    ******/"
    ⟨by decide, by decide⟩ ⟨by decide, by decide⟩ ⟨by decide, by decide⟩
    ⟨by decide, by decide⟩ ⟨by decide, by decide⟩ ⟨by decide, by decide⟩
    ⟨by decide, by decide⟩ (by decide)


/-- C2 counterexample: the claim asserts a marker-prefixed line whose parse
fails is written verbatim to the currently open sink; in fact with a sink
open the line has no effect at all — the run with the unparsable line equals
the run without it, and the open sink's body stays empty. -/
theorem C2_counterexample :
    runLoose "." false
        ["/****** Object:  View [dbo].[V1]    ******/\n",
         "/****** Object:  Bogus [dbo].[X]    ******/\n"] initState =
      runLoose "." false
        ["/****** Object:  View [dbo].[V1]    ******/\n"] initState ∧
    (runLoose "." false
        ["/****** Object:  View [dbo].[V1]    ******/\n",
         "/****** Object:  Bogus [dbo].[X]    ******/\n"] initState).current =
      some ⟨"./View/dbo.V1.sql", "",
        "/****** Object:  View [dbo].[V1]    ******/\n", ""⟩ ∧
    strStartsWith "/****** Object:  Bogus [dbo].[X]    ******/\n"
        "/****** Object:" = true ∧
    DatabaseObject.try_from "/****** Object:  Bogus [dbo].[X]    ******/\n" =
      none ∧
    ("/****** Object:  Bogus [dbo].[X]    ******/\n" : String) ≠ "" := by
  refine ⟨by decide, by decide, by decide, by decide, by decide⟩

/-- C2 (amended): a line carrying the marker prefix whose kind token is
unrecognized or whose bracket pattern fails to parse is silently dropped in
both output modes — whether or not a sink is open, the loop state is exactly
as if the line were absent — and the run is not aborted. -/
theorem C2_unrecognized_marker_dropped (outDir zipParent : String)
    (onlyNames : Bool) (l : String) (rest : List String) (st : LState)
    (pre : String) (w : ZBuf)
    (hu : strStartsWith l "USE " = false)
    (hm : strStartsWith l "/****** Object:" = true)
    (ho : DatabaseObject.try_from l = none) :
    runLoose outDir onlyNames (l :: rest) st =
        runLoose outDir onlyNames rest st ∧
      runZipLoop zipParent onlyNames (l :: rest) pre w =
        runZipLoop zipParent onlyNames rest pre w :=
  ⟨runLoose_cons_badMarker outDir onlyNames rest st hu hm ho,
    runZipLoop_cons_badMarker zipParent onlyNames rest pre w hu hm ho⟩

/-- Witness for C2: the amended theorem at a concrete unparsable
marker-prefixed line, with a sink open on the loose side. -/
theorem C2_unrecognized_marker_dropped_witness :
    runLoose "." false ["/****** Object:  Bogus [dbo].[X]    ******/\n"]
        ⟨"", some ⟨"./View/dbo.V1.sql", "", "m\n", ""⟩, []⟩ =
      runLoose "." false []
        ⟨"", some ⟨"./View/dbo.V1.sql", "", "m\n", ""⟩, []⟩ ∧
    runZipLoop "out" false ["/****** Object:  Bogus [dbo].[X]    ******/\n"]
        "" ⟨"", ⟨[ZEntry.dir "out"], false⟩⟩ =
      runZipLoop "out" false [] "" ⟨"", ⟨[ZEntry.dir "out"], false⟩⟩ :=
  C2_unrecognized_marker_dropped "." "out" false
    "/****** Object:  Bogus [dbo].[X]    ******/\n" [] _ "" _
    (by decide) (by decide) (by decide)

/-- C4 counterexample: the claim asserts that in archive mode too, content
read while no sink is open is dropped without error; in fact such lines are
passed to the `BufWriter`: with no entry ever started the final flush fails
and the run aborts, and with a later marker the buffered bytes are written
into that first entry. -/
theorem C4_counterexample :
    runZip "out" false ["hello\n"] = none ∧
    runZip "out" false
        ["hello\n", "/****** Object:  StoredProcedure [dbo].[GetUsers]    ******/\n",
         "CREATE PROCEDURE dbo.GetUsers AS SELECT 1\n"] =
      some ⟨[ZEntry.dir "out",
        ZEntry.file "out/StoredProcedure/dbo.GetUsers.sql"
          ("hello\n/****** Object:  StoredProcedure [dbo].[GetUsers]    ******/\nCREATE PROCEDURE dbo.GetUsers AS SELECT 1\n")],
        false⟩ := by
  refine ⟨by decide, by decide⟩

/-- C4 (amended): in loose-file mode, a non-marker, non-context-switch line
read while no writer is open is dropped: the loop state is exactly as if the
line were absent, and the run continues. -/
theorem C4_dropped_when_no_sink (outDir : String) (onlyNames : Bool)
    (l : String) (rest : List String) (st : LState)
    (hu : strStartsWith l "USE " = false)
    (hm : strStartsWith l "/****** Object:" = false)
    (hc : st.current = none) :
    runLoose outDir onlyNames (l :: rest) st =
      runLoose outDir onlyNames rest st := by
  rw [runLoose_cons_other outDir onlyNames rest st hu hm]
  congr 1
  simp [writeLine, hc]

/-- Witness for C4: the amended theorem at a concrete content line with no
sink open. -/
theorem C4_dropped_when_no_sink_witness :
    runLoose "." false ["SET ANSI_NULLS ON\n"] initState =
      runLoose "." false [] initState :=
  C4_dropped_when_no_sink "." false "SET ANSI_NULLS ON\n" [] initState
    (by decide) (by decide) (by decide)

/-- C5 counterexample: the claim asserts that input ending right after a
`USE `-line aborts with a hard read error; in fact `read_line` at end of
input returns zero bytes without error, so the run completes normally with
the preamble holding the `USE` line alone. -/
theorem C5_counterexample :
    runLoose "." false ["USE [X]\n"] initState =
      ⟨"USE [X]\n", none, []⟩ ∧
    runZip "out" false ["USE [X]\n"] =
      some ⟨[ZEntry.dir "out"], false⟩ := by
  refine ⟨by decide, by decide⟩

/-- C5 (amended): when the stream ends immediately after a `USE `-line, the
second `read_line` returns zero bytes (end of input is not a read error) and
the loop finishes normally, with `db_use_statement` holding the `USE` line
alone; both output modes behave identically. -/
theorem C5_use_at_eof (outDir zipParent : String) (onlyNames : Bool)
    (u : String) (st : LState) (pre : String) (w : ZBuf)
    (hu : strStartsWith u "USE " = true) :
    runLoose outDir onlyNames [u] st = { st with preamble := u } ∧
      runZipLoop zipParent onlyNames [u] pre w = some (u, w) :=
  ⟨runLoose_use_last outDir onlyNames st hu,
    runZipLoop_use_last zipParent onlyNames pre w hu⟩

/-- Witness for C5: the amended theorem at the concrete line `USE [X]`. -/
theorem C5_use_at_eof_witness :
    runLoose "." false ["USE [X]\n"] initState =
        { initState with preamble := "USE [X]\n" } ∧
      runZipLoop "out" false ["USE [X]\n"] ""
          ⟨"", ⟨[ZEntry.dir "out"], false⟩⟩ =
        some ("USE [X]\n", ⟨"", ⟨[ZEntry.dir "out"], false⟩⟩) :=
  C5_use_at_eof "." "out" false "USE [X]\n" initState ""
    ⟨"", ⟨[ZEntry.dir "out"], false⟩⟩ (by decide)


set_option maxRecDepth 8000 in
/-- C7 counterexample: the claim asserts that in every run, switching sinks
flushes the previous sink before any byte reaches the new one, so writes are
never attributed across objects; in archive mode the loop starts the next
entry via `get_mut` without flushing the `BufWriter`, so the first object's
bytes (preamble, marker and body, all nonempty) land in the second entry and
its own entry stays empty. -/
theorem C7_counterexample :
    runZip "out" false
        ["USE [MyDb]\n", "GO\n",
         "/****** Object:  StoredProcedure [dbo].[GetUsers]    ******/\n",
         "CREATE PROCEDURE dbo.GetUsers AS SELECT 1\n",
         "/****** Object:  View [dbo].[V1]    ******/\n",
         "CREATE VIEW dbo.V1 AS SELECT 1\n"] =
      some ⟨[ZEntry.dir "out",
        ZEntry.file "out/StoredProcedure/dbo.GetUsers.sql" "",
        ZEntry.file "out/View/dbo.V1.sql"
          ("USE [MyDb]\nGO\n/****** Object:  StoredProcedure [dbo].[GetUsers]    ******/\nCREATE PROCEDURE dbo.GetUsers AS SELECT 1\nUSE [MyDb]\nGO\n/****** Object:  View [dbo].[V1]    ******/\nCREATE VIEW dbo.V1 AS SELECT 1\n")],
        false⟩ ∧
    ("USE [MyDb]\nGO\n/****** Object:  StoredProcedure [dbo].[GetUsers]    ******/\nCREATE PROCEDURE dbo.GetUsers AS SELECT 1\n" : String) ≠ "" := by
  refine ⟨by decide, by decide⟩

/-- C7 (amended): in loose-file mode the sinks of a run, listed in creation
order, carry exactly the recognized marker lines in input order with their
derived paths — sinks are created and retired in marker order and their count
equals the number of recognizer successes; at most one writer is open at any
time (the loop state holds an `Option` of a writer). -/
theorem C7_sink_order (outDir : String) (onlyNames : Bool)
    (lines : List String) (st : LState) :
    (allSinks (runLoose outDir onlyNames lines st)).map
        (fun s => (s.marker, s.path)) =
      (allSinks st).map (fun s => (s.marker, s.path)) ++
        (recognizedMarkers lines).map
          (fun q => (q.1, objPath onlyNames outDir q.2)) :=
  runLoose_allSinks_map_aux outDir onlyNames lines.length lines st le_rfl

/-- C8: for a recognized descriptor the generated filename is
`<schema>.<name>.sql` with names-only off and nonempty schema, `<name>.sql`
otherwise, and the destination is `<out-dir>/<Kind>/<filename>` for the
loose-file sink and `<archive-base>/<Kind>/<filename>` for the archive
entry. -/
theorem C8_filename_policy (outDir zipParent : String) (onlyNames : Bool)
    (m : String) (obj : DatabaseObject) (rest : List String) (st : LState)
    (pre : String) (w : ZBuf)
    (hu : strStartsWith m "USE " = false)
    (hm : strStartsWith m "/****** Object:" = true)
    (ho : DatabaseObject.try_from m = some obj) :
    (∃ b, (allSinks (runLoose outDir onlyNames (m :: rest)
        st))[(st.closed ++ st.current.toList).length]? =
      some ⟨outDir ++ "/" ++ obj.object_type.display ++ "/" ++
          (if onlyNames || obj.schema = "" then obj.name ++ ".sql"
           else obj.schema ++ "." ++ obj.name ++ ".sql"),
        st.preamble, m, b⟩) ∧
    (∃ w', zipCreateSink zipParent onlyNames pre m obj w = some w' ∧
      (w'.zip.entries.map ZEntry.name)[w.zip.entries.length]? =
        some (zipParent ++ "/" ++ obj.object_type.display ++ "/" ++
          (if onlyNames || obj.schema = "" then obj.name ++ ".sql"
           else obj.schema ++ "." ++ obj.name ++ ".sql"))) := by
  constructor
  · rw [runLoose_cons_marker outDir onlyNames rest st hu hm ho]
    obtain ⟨b, hb⟩ := runLoose_current_persists_aux outDir onlyNames
      rest.length rest
      { preamble := st.preamble,
        current := some
          { path := objPath onlyNames outDir obj,
            preamble := st.preamble, marker := m, body := "" },
        closed := st.closed ++ st.current.toList }
      { path := objPath onlyNames outDir obj,
        preamble := st.preamble, marker := m, body := "" }
      le_rfl rfl
    refine ⟨b, ?_⟩
    rw [← objPath_explicit]
    exact hb
  · obtain ⟨w', hw', hnames, -⟩ :=
      zipCreateSink_spec zipParent onlyNames pre m obj w
    refine ⟨w', hw', ?_⟩
    rw [hnames, ← objPath_explicit]
    have hlen : (w.zip.entries.map ZEntry.name).length = w.zip.entries.length :=
      List.length_map w.zip.entries ZEntry.name
    rw [← hlen]
    exact List.getElem?_concat_length _ _

/-- Witness for C8: the filename policy at a concrete marker, default flags,
empty initial state. -/
theorem C8_filename_policy_witness :
    (∃ b, (allSinks (runLoose "out" false
        ["/****** Object:  View [dbo].[V1]    ******/\n"]
        initState))[(initState.closed ++ initState.current.toList).length]? =
      some ⟨"out" ++ "/" ++ (ObjectType.View).display ++ "/" ++
          (if false || (⟨ObjectType.View, "dbo", "V1"⟩ : DatabaseObject).schema = ""
           then (⟨ObjectType.View, "dbo", "V1"⟩ : DatabaseObject).name ++ ".sql"
           else (⟨ObjectType.View, "dbo", "V1"⟩ : DatabaseObject).schema ++ "." ++
             (⟨ObjectType.View, "dbo", "V1"⟩ : DatabaseObject).name ++ ".sql"),
        initState.preamble, "/****** Object:  View [dbo].[V1]    ******/\n", b⟩) ∧
    (∃ w', zipCreateSink "arch" false ""
        "/****** Object:  View [dbo].[V1]    ******/\n"
        ⟨ObjectType.View, "dbo", "V1"⟩ ⟨"", ⟨[ZEntry.dir "arch"], false⟩⟩ = some w' ∧
      (w'.zip.entries.map ZEntry.name)[(⟨"", ⟨[ZEntry.dir "arch"], false⟩⟩ :
          ZBuf).zip.entries.length]? =
        some ("arch" ++ "/" ++ (ObjectType.View).display ++ "/" ++
          (if false || (⟨ObjectType.View, "dbo", "V1"⟩ : DatabaseObject).schema = ""
           then (⟨ObjectType.View, "dbo", "V1"⟩ : DatabaseObject).name ++ ".sql"
           else (⟨ObjectType.View, "dbo", "V1"⟩ : DatabaseObject).schema ++ "." ++
             (⟨ObjectType.View, "dbo", "V1"⟩ : DatabaseObject).name ++ ".sql"))) :=
  C8_filename_policy "out" "arch" false
    "/****** Object:  View [dbo].[V1]    ******/\n"
    ⟨ObjectType.View, "dbo", "V1"⟩ [] initState ""
    ⟨"", ⟨[ZEntry.dir "arch"], false⟩⟩ (by decide) (by decide) (by decide)

/-- C9 counterexample: the claim asserts the `.zip` extension is appended
when missing and that the fail-fast existence check guards the target; in
fact the path keeps only its stem (`backup.old` becomes `backup.zip`, not
`backup.old.zip`), and the existence check runs on the path as given, so a
pre-existing `out.zip` is not detected when the user passes `out`. -/
theorem C9_counterexample :
    resolveZipPath (fun s => s = "out.zip") "out" = some "out.zip" ∧
      resolveZipPath (fun _ => false) "backup.old" = some "backup.zip" ∧
      ("backup.zip" : String) ≠ "backup.old" ++ ".zip" := by
  refine ⟨by decide, by decide, by decide⟩

/-- C9 (amended): with `-z <zp>` the program exits before processing exactly
when the path **as given** exists; otherwise the archive path is `zp` when it
already ends in `.zip`, else `with_extension("zip")` of it, which replaces
the final component's last extension and appends `.zip` only when the
component has none. -/
theorem C9_zip_path_resolution (ex : String → Bool) (zp : String) :
    (ex zp = true → resolveZipPath ex zp = none) ∧
      (ex zp = false → strEndsWith zp ".zip" = true →
        resolveZipPath ex zp = some zp) ∧
      (ex zp = false → strEndsWith zp ".zip" = false →
        resolveZipPath ex zp = some (withExtensionZip zp)) ∧
      ('.' ∉ zp.data → '/' ∉ zp.data → withExtensionZip zp = zp ++ ".zip") := by
  refine ⟨fun h => by simp [resolveZipPath, h],
    fun h1 h2 => by simp [resolveZipPath, h1, h2],
    fun h1 h2 => by simp [resolveZipPath, h1, h2], fun h1 h2 => ?_⟩
  unfold withExtensionZip
  rw [splitLast_eq_none h2]
  dsimp only
  rw [splitLast_eq_none h1]
  dsimp only
  apply String.ext
  simp only [String.data_append]
  simp [List.append_assoc]

/-- Witness for C9: the amended theorem at an extension-free name with no
pre-existing target: the extension is appended. -/
theorem C9_zip_path_resolution_witness :
    resolveZipPath (fun _ => false) "noext" = some ("noext" ++ ".zip") := by
  have h := C9_zip_path_resolution (fun _ => false) "noext"
  rw [h.2.2.1 rfl (by decide), h.2.2.2 (by decide) (by decide)]

/-- C10: in every run that passes the configuration checks — in particular in
archive mode — the filesystem effect list opens with `create_dir_all` on the
(slash-trimmed) `--out-dir`, before the zip file is created and before any
processing. -/
theorem C10_outdir_created (ex : String → Bool) (outDir : String)
    (zip : Option String) (inFile : Option String) (effs : List SetupEffect)
    (h : setupEffects ex outDir zip inFile = some effs) :
    effs.head? = some (.createDirAll (trimOutDir outDir)) ∧
      SetupEffect.createDirAll (trimOutDir outDir) ∈ effs := by
  unfold setupEffects at h
  cases zip with
  | none =>
    cases inFile with
    | none =>
      simp at h
      subst h
      exact ⟨rfl, by simp⟩
    | some f =>
      cases hf : ex f with
      | true =>
        simp [hf] at h
        subst h
        exact ⟨rfl, by simp⟩
      | false => simp [hf] at h
  | some zp =>
    dsimp only at h
    cases hr : resolveZipPath ex zp with
    | none =>
      rw [hr] at h
      simp at h
    | some target =>
      rw [hr] at h
      cases inFile with
      | none =>
        simp at h
        subst h
        exact ⟨rfl, by simp⟩
      | some f =>
        cases hf : ex f with
        | true =>
          simp [hf] at h
          subst h
          exact ⟨rfl, by simp⟩
        | false => simp [hf] at h

/-- Witness for C10: a zip-mode configuration with an existing input file:
the effect list opens with the out-dir creation. -/
theorem C10_outdir_created_witness :
    ([SetupEffect.createDirAll "d",
        SetupEffect.createZipFile "out.zip"] : List SetupEffect).head? =
        some (.createDirAll (trimOutDir "d/")) ∧
      SetupEffect.createDirAll (trimOutDir "d/") ∈
        [SetupEffect.createDirAll "d", SetupEffect.createZipFile "out.zip"] :=
  C10_outdir_created (fun s => s = "in.sql") "d/" (some "out") (some "in.sql")
    [SetupEffect.createDirAll "d", SetupEffect.createZipFile "out.zip"]
    (by decide)


/-- A recognized marker at the head of the remaining input creates a sink,
primed with the preamble in effect and the marker line, at the next position
in creation order; the sink keeps that path, preamble and marker line for the
rest of the run. -/
theorem runLoose_creates_sink (outDir : String) (onlyNames : Bool)
    (m : String) (obj : DatabaseObject) (rest : List String) (st : LState)
    (hmu : strStartsWith m "USE " = false)
    (hmm : strStartsWith m "/****** Object:" = true)
    (ho : DatabaseObject.try_from m = some obj) :
    ∃ b, (allSinks (runLoose outDir onlyNames (m :: rest)
        st))[(st.closed ++ st.current.toList).length]? =
      some ⟨objPath onlyNames outDir obj, st.preamble, m, b⟩ := by
  rw [runLoose_cons_marker outDir onlyNames rest st hmu hmm ho]
  exact runLoose_current_persists_aux outDir onlyNames rest.length rest
    { preamble := st.preamble,
      current := some
        { path := objPath onlyNames outDir obj,
          preamble := st.preamble, marker := m, body := "" },
      closed := st.closed ++ st.current.toList }
    { path := objPath onlyNames outDir obj,
      preamble := st.preamble, marker := m, body := "" }
    le_rfl rfl

theorem Option.toList_length_of_isSome {α : Type} {o : Option α}
    (h : o.isSome = true) : o.toList.length = 1 := by
  cases o with
  | none => exact absurd h (by simp)
  | some a => rfl

/-- C1 (amended): in loose-file mode, the sink created at a marker begins
with the database-context preamble in effect at that marker (the `USE` line
and the following line, each with its original terminator) immediately
followed by the marker line; a later context switch changes the preamble only
for sinks created afterwards — the earlier sink keeps its original preamble
to the end of the run — and with no context switch before the marker no
preamble bytes are written. -/
theorem C1_preamble_propagation (outDir : String) (onlyNames : Bool)
    (u g u2 g2 m m2 : String) (mid mid2 mid3 tail : List String)
    (obj obj2 : DatabaseObject)
    (hu : strStartsWith u "USE " = true)
    (hu2 : strStartsWith u2 "USE " = true)
    (hmid : ∀ l ∈ mid, strStartsWith l "USE " = false)
    (hmid2 : ∀ l ∈ mid2, strStartsWith l "USE " = false)
    (hmid3 : ∀ l ∈ mid3, strStartsWith l "USE " = false)
    (hmu : strStartsWith m "USE " = false)
    (hmm : strStartsWith m "/****** Object:" = true)
    (ho : DatabaseObject.try_from m = some obj)
    (hnu : strStartsWith m2 "USE " = false)
    (hnm : strStartsWith m2 "/****** Object:" = true)
    (ho2 : DatabaseObject.try_from m2 = some obj2) :
    (∃ (i j : Nat) (bi bj : String), i < j ∧
      (allSinks (runLoose outDir onlyNames
          (u :: g :: (mid ++ m :: (mid2 ++ u2 :: g2 :: (mid3 ++ m2 :: tail))))
          initState))[i]? =
        some (Sink.mk (objPath onlyNames outDir obj) (u ++ g) m bi) ∧
      (allSinks (runLoose outDir onlyNames
          (u :: g :: (mid ++ m :: (mid2 ++ u2 :: g2 :: (mid3 ++ m2 :: tail))))
          initState))[j]? =
        some (Sink.mk (objPath onlyNames outDir obj2) (u2 ++ g2) m2 bj)) ∧
    (∃ (i : Nat) (bi : String),
      (allSinks (runLoose outDir onlyNames (mid ++ m :: tail) initState))[i]? =
        some (Sink.mk (objPath onlyNames outDir obj) "" m bi)) := by
  constructor
  · set stA := runLoose outDir onlyNames mid { initState with preamble := u ++ g }
      with hstA
    have hpA : stA.preamble = u ++ g := by
      rw [hstA, runLoose_preamble_noUse outDir onlyNames mid _ hmid]
    set stB : LState :=
      { preamble := stA.preamble,
        current := some
          { path := objPath onlyNames outDir obj,
            preamble := stA.preamble, marker := m, body := "" },
        closed := stA.closed ++ stA.current.toList } with hstB
    set stC := runLoose outDir onlyNames mid2 stB with hstC
    set stD := runLoose outDir onlyNames mid3 { stC with preamble := u2 ++ g2 }
      with hstD
    have hpD : stD.preamble = u2 ++ g2 := by
      rw [hstD, runLoose_preamble_noUse outDir onlyNames mid3 _ hmid3]
    have hFull1 : runLoose outDir onlyNames
        (u :: g :: (mid ++ m :: (mid2 ++ u2 :: g2 :: (mid3 ++ m2 :: tail))))
        initState =
        runLoose outDir onlyNames
          (m :: (mid2 ++ u2 :: g2 :: (mid3 ++ m2 :: tail))) stA := by
      rw [runLoose_cons_use outDir onlyNames _ _ _ hu,
        runLoose_append_noUse outDir onlyNames mid _ _ hmid, ← hstA]
    have hFull2 : runLoose outDir onlyNames
        (m :: (mid2 ++ u2 :: g2 :: (mid3 ++ m2 :: tail))) stA =
        runLoose outDir onlyNames (m2 :: tail) stD := by
      rw [runLoose_cons_marker outDir onlyNames _ _ hmu hmm ho, ← hstB,
        runLoose_append_noUse outDir onlyNames mid2 _ _ hmid2, ← hstC,
        runLoose_cons_use outDir onlyNames _ _ _ hu2,
        runLoose_append_noUse outDir onlyNames mid3 _ _ hmid3, ← hstD]
    obtain ⟨bi, hbi⟩ := runLoose_creates_sink outDir onlyNames m obj
      (mid2 ++ u2 :: g2 :: (mid3 ++ m2 :: tail)) stA hmu hmm ho
    obtain ⟨bj, hbj⟩ := runLoose_creates_sink outDir onlyNames m2 obj2
      tail stD hnu hnm ho2
    obtain ⟨t1, ht1⟩ : ∃ t1, stC.closed = stB.closed ++ t1 := by
      rw [hstC]
      exact runLoose_closed_prefix outDir onlyNames mid2 stB
    obtain ⟨t2, ht2⟩ : ∃ t2, stD.closed = stC.closed ++ t2 := by
      rw [hstD]
      have h2 := runLoose_closed_prefix outDir onlyNames mid3
        { stC with preamble := u2 ++ g2 }
      simpa using h2
    have hDsome : stD.current.isSome = true := by
      rw [hstD]
      refine runLoose_current_isSome_aux outDir onlyNames mid3.length mid3 _
        le_rfl ?_
      show stC.current.isSome = true
      rw [hstC]
      refine runLoose_current_isSome_aux outDir onlyNames mid2.length mid2 _
        le_rfl ?_
      rw [hstB]
      rfl
    have hij : (stA.closed ++ stA.current.toList).length <
        (stD.closed ++ stD.current.toList).length := by
      have hBi : stB.closed = stA.closed ++ stA.current.toList := by rw [hstB]
      rw [List.length_append, List.length_append, ht2, ht1, hBi,
        Option.toList_length_of_isSome hDsome]
      simp only [List.length_append]
      omega
    refine ⟨(stA.closed ++ stA.current.toList).length,
      (stD.closed ++ stD.current.toList).length, bi, bj, hij, ?_, ?_⟩
    · rw [hFull1]
      rw [hpA] at hbi
      exact hbi
    · rw [hFull1, hFull2]
      rw [hpD] at hbj
      exact hbj
  · set stA2 := runLoose outDir onlyNames mid initState with hstA2
    have hpA2 : stA2.preamble = "" := by
      rw [hstA2, runLoose_preamble_noUse outDir onlyNames mid _ hmid]
      rfl
    obtain ⟨b, hb⟩ := runLoose_creates_sink outDir onlyNames m obj tail stA2
      hmu hmm ho
    refine ⟨(stA2.closed ++ stA2.current.toList).length, b, ?_⟩
    rw [runLoose_append_noUse outDir onlyNames mid _ _ hmid, ← hstA2]
    rw [hpA2] at hb
    exact hb


set_option maxRecDepth 8000 in
/-- C1 counterexample: the claim quantifies over every run, including archive
mode; there, the entry created after the context switch `USE [DB]` + `GO`
stays empty — its bytes sit in the `BufWriter` and are flushed into whichever
entry is open later — so its first two lines are not the context switch. -/
theorem C1_counterexample :
    runZip "out" false
        ["USE [DB]\n", "GO\n",
         "/****** Object:  Table [s].[T1]    ******/\n", "c1\n",
         "/****** Object:  Table [s].[T2]    ******/\n", "c2\n"] =
      some ⟨[ZEntry.dir "out",
        ZEntry.file "out/Table/s.T1.sql" "",
        ZEntry.file "out/Table/s.T2.sql"
          ("USE [DB]\nGO\n/****** Object:  Table [s].[T1]    ******/\nc1\nUSE [DB]\nGO\n/****** Object:  Table [s].[T2]    ******/\nc2\n")],
        false⟩ ∧
    strStartsWith "" "USE [DB]\n" = false := by
  refine ⟨by decide, by decide⟩

/-- Witness for C1: the amended theorem at a concrete six-line input with two
context switches and two markers. -/
theorem C1_preamble_propagation_witness :
    (∃ (i j : Nat) (bi bj : String), i < j ∧
      (allSinks (runLoose "out" false
          ("USE [A]\n" :: "GO\n" ::
            ("/****** Object:  Table [s].[T1]    ******/\n" ::
              ("USE [B]\n" :: "GO\n" ::
                ("/****** Object:  Table [s].[T2]    ******/\n" :: []))))
          initState))[i]? =
        some (Sink.mk
          (objPath false "out" ⟨ObjectType.Table, "s", "T1"⟩)
          ("USE [A]\n" ++ "GO\n")
          "/****** Object:  Table [s].[T1]    ******/\n" bi) ∧
      (allSinks (runLoose "out" false
          ("USE [A]\n" :: "GO\n" ::
            ("/****** Object:  Table [s].[T1]    ******/\n" ::
              ("USE [B]\n" :: "GO\n" ::
                ("/****** Object:  Table [s].[T2]    ******/\n" :: []))))
          initState))[j]? =
        some (Sink.mk
          (objPath false "out" ⟨ObjectType.Table, "s", "T2"⟩)
          ("USE [B]\n" ++ "GO\n")
          "/****** Object:  Table [s].[T2]    ******/\n" bj)) ∧
    (∃ (i : Nat) (bi : String),
      (allSinks (runLoose "out" false
          ("/****** Object:  Table [s].[T1]    ******/\n" :: [])
          initState))[i]? =
        some (Sink.mk (objPath false "out" ⟨ObjectType.Table, "s", "T1"⟩) ""
          "/****** Object:  Table [s].[T1]    ******/\n" bi)) :=
  C1_preamble_propagation "out" false "USE [A]\n" "GO\n" "USE [B]\n" "GO\n"
    "/****** Object:  Table [s].[T1]    ******/\n"
    "/****** Object:  Table [s].[T2]    ******/\n"
    [] [] [] [] ⟨ObjectType.Table, "s", "T1"⟩ ⟨ObjectType.Table, "s", "T2"⟩
    (by decide) (by decide) (by decide) (by decide) (by decide) (by decide)
    (by decide) (by decide) (by decide) (by decide) (by decide)

end SqlSplitter

